import Mathlib

/-! Verification of fetch-health-check: a shallow embedding of `main.go`.

The program polls a list of HTTP endpoints, classifies every probe as healthy
or not, accumulates per-domain counters in the global map `stats`, and prints
one availability line per domain after every pass.

Conventions of the embedding.

* Go's `int` is the 64-bit two's-complement integer of the usual targets; it is
  an `Int` kept in range by `wrapInt` after every arithmetic operation.
* A run-time panic (index out of range, nil dereference, division by zero) is
  the value `none` of an `Option` result.
* The map `stats` is an association list; the order of the list stands for one
  of the iteration orders Go may choose.
* The Go standard library is not part of the repository.  What the program
  needs from it and cannot be computed here (URL parsing, Unicode upper-casing,
  request validation, the network) is a field of `Lib` or an argument.
-/

namespace HealthCheck

/-! ## Machine integers -/

/-- Largest value of Go's `int` on a 64-bit target. -/
def maxInt : Int := 2 ^ 63 - 1

/-- Smallest value of Go's `int` on a 64-bit target. -/
def minInt : Int := -(2 ^ 63)

/-- Reduction of a mathematical integer to the 64-bit two's-complement value
Go computes for it. -/
def wrapInt (x : Int) : Int := (x + 2 ^ 63) % 2 ^ 64 - 2 ^ 63

/-- Go's `a + b` on `int`. -/
def intAdd (a b : Int) : Int := wrapInt (a + b)

/-- Go's `a * b` on `int`. -/
def intMul (a b : Int) : Int := wrapInt (a * b)

/-- Go's `a / b` on `int`: truncation toward zero, and a panic on a zero
divisor. -/
def intDiv (a b : Int) : Option Int :=
  if b = 0 then none else some (wrapInt (Int.tdiv a b))

/-- Values a Go `int` variable can hold. -/
def InRange (x : Int) : Prop := minInt ≤ x ∧ x ≤ maxInt

/-! ## The parts of package `strings` and `unicode` the program calls -/

/-- Pieces of a rune sequence between occurrences of the separator rune; the
result always has one more piece than there are separators. -/
def splitChars (sep : Char) : List Char → List (List Char)
  | [] => [[]]
  | c :: cs =>
    if c = sep then [] :: splitChars sep cs
    else
      match splitChars sep cs with
      | [] => [[c]]
      | p :: ps => (c :: p) :: ps

/-- Go's `strings.Split(s, sep)` for a separator of one byte. -/
def strings.Split (s : String) (sep : Char) : List String :=
  (splitChars sep s.data).map String.mk

/-- Go's `strings.Contains(s, sep)` for a separator of one byte. -/
def strings.Contains (s : String) (sep : Char) : Bool :=
  s.data.any (fun c => c == sep)

/-- Go's `unicode.IsSpace`: the code points with the White_Space property. -/
def unicode.IsSpace (r : Char) : Bool :=
  let n := r.toNat
  decide ((0x09 ≤ n ∧ n ≤ 0x0D) ∨ n = 0x20 ∨ n = 0x85 ∨ n = 0xA0 ∨ n = 0x1680 ∨
    (0x2000 ≤ n ∧ n ≤ 0x200A) ∨ n = 0x2028 ∨ n = 0x2029 ∨ n = 0x202F ∨
    n = 0x205F ∨ n = 0x3000)

/-- Go's `strings.TrimSpace`: leading and trailing white space removed. -/
def strings.TrimSpace (s : String) : String :=
  String.mk ((s.data.dropWhile unicode.IsSpace).reverse.dropWhile unicode.IsSpace).reverse

/-- Go's `strings.ToUpper`: every rune mapped through `unicode.ToUpper`. -/
def strings.ToUpper (toUpperRune : Char → Char) (s : String) : String :=
  String.mk (s.data.map toUpperRune)

/-- Go's indexing `xs[i]`, which panics when `i` is out of range. -/
def index {α : Type} (xs : List α) (i : Nat) : Option α := xs.get? i

/-! ## Data model -/

/-- One configured HTTP target (`type Endpoint struct`). -/
structure Endpoint where
  Name : String
  URL : String
  Method : String
  Headers : List (String × String)
  Body : String
deriving DecidableEq, Repr

/-- Counters of one domain (`type DomainStats struct`). -/
structure DomainStats where
  Success : Int
  Total : Int
deriving DecidableEq, Repr

/-- The global `stats` map, `map[string]*DomainStats`. -/
abbrev Stats := List (String × DomainStats)

/-- The map expression `stats[domain]`; `none` is the nil pointer Go returns
for an absent key. -/
def Stats.find : Stats → String → Option DomainStats
  | [], _ => none
  | (k, v) :: rest, d => if k = d then some v else Stats.find rest d

/-- The store `stats[domain] = v`, also used to write back the struct a bucket
pointer designates. -/
def Stats.put : Stats → String → DomainStats → Stats
  | [], d, v => [(d, v)]
  | (k, w) :: rest, d, v =>
    if k = d then (k, v) :: rest else (k, w) :: Stats.put rest d v

/-- Keys of the map, in the order of the list. -/
def Stats.keys (s : Stats) : List String := s.map Prod.fst

/-- The part of `*url.URL` the program reads. -/
structure URL where
  Host : String
deriving DecidableEq, Repr

/-- The part of `*http.Request` the program determines. -/
structure Request where
  Method : String
  URL : String
  Body : Option String
  Header : List (String × String)
deriving DecidableEq, Repr

/-- The part of `*http.Response` the program reads. -/
structure Response where
  StatusCode : Int
deriving DecidableEq, Repr

/-- What one `client.Do(req)` gave: the response pointer, the error, and the
duration measured around the call, in nanoseconds. -/
structure DoResult where
  resp : Option Response
  err : Option String
  elapsed : Int
deriving DecidableEq, Repr

/-- Behaviour of the network for one call of `client.Do`. -/
abbrev Net := Request → DoResult

/-- The standard-library functions whose results the program depends on and
that are not computed in this file. -/
structure Lib where
  /-- Function `url.Parse`. -/
  urlParse : String → Except String URL
  /-- Function `unicode.ToUpper`. -/
  toUpperRune : Char → Char
  /-- On ASCII, `unicode.ToUpper` maps `a`..`z` to `A`..`Z` and nothing else. -/
  toUpperRune_ascii : ∀ c : Char, c.toNat < 128 → toUpperRune c = c.toUpper
  /-- The error of `http.NewRequest(method, url, body)`, if any. -/
  newRequestErr : String → String → Option String → Option String
  /-- Function `textproto.CanonicalMIMEHeaderKey`, applied by `Header.Set`. -/
  canonicalHeaderKey : String → String

/-- Constant `500 * time.Millisecond`, in nanoseconds. -/
def timeout500ms : Int := 500 * 1000000

/-! ## The program -/

/-- Function `extractDomain` (main.go, lines 127-138). -/
def extractDomain (lib : Lib) (raw : String) : Option String :=
  match lib.urlParse raw with
  | .error _ => some raw
  | .ok parsed =>
    let host := parsed.Host
    if strings.Contains host ':' then
      index (strings.Split host ':') 0
    else
      some host

/-- Function `initStats` (lines 59-67), on the map it finds. -/
def initStats (lib : Lib) : List Endpoint → Stats → Option Stats
  | [], stats => some stats
  | ep :: rest, stats =>
    match extractDomain lib ep.URL with
    | none => none
    | some domain =>
      if (stats.find domain).isNone then
        initStats lib rest (stats.put domain { Success := 0, Total := 0 })
      else
        initStats lib rest stats

/-- The variable `method` of `checkHealth` (lines 71-74). -/
def checkHealth.method (lib : Lib) (endpoint : Endpoint) : String :=
  let method := strings.ToUpper lib.toUpperRune (strings.TrimSpace endpoint.Method)
  if method = "" then "GET" else method

/-- The variable `body` of `checkHealth` (lines 76-79); `none` is the nil
reader. -/
def checkHealth.body (lib : Lib) (endpoint : Endpoint) : Option String :=
  let method := checkHealth.method lib endpoint
  if endpoint.Body ≠ "" ∧ (method = "POST" ∨ method = "PUT" ∨ method = "PATCH") then
    some endpoint.Body
  else
    none

/-- Method `Header.Set`: the value stored under the canonical form of the key. -/
def headerSet (lib : Lib) (h : List (String × String)) (k v : String) :
    List (String × String) :=
  let ck := lib.canonicalHeaderKey k
  h.filter (fun kv => kv.1 ≠ ck) ++ [(ck, v)]

/-- The request `checkHealth` hands to `client.Do` (lines 71-89), or the error
of `http.NewRequest`. -/
def checkHealth.request (lib : Lib) (endpoint : Endpoint) : Except String Request :=
  let method := checkHealth.method lib endpoint
  let body := checkHealth.body lib endpoint
  match lib.newRequestErr method endpoint.URL body with
  | some err => .error err
  | none =>
    .ok { Method := method, URL := endpoint.URL, Body := body,
          Header := endpoint.Headers.foldl (fun h kv => headerSet lib h kv.1 kv.2) [] }

/-- The condition under which `checkHealth` counts a success (lines 107-109). -/
def checkHealth.healthy (r : DoResult) : Bool :=
  match r.err, r.resp with
  | none, some resp =>
    decide (resp.StatusCode ≥ 200 ∧ resp.StatusCode ≤ 299 ∧ r.elapsed < timeout500ms)
  | _, _ => false

/-- Function `checkHealth` (lines 70-113): the map after the call. -/
def checkHealth (lib : Lib) (net : Net) (endpoint : Endpoint) (stats : Stats) :
    Option Stats :=
  match checkHealth.request lib endpoint with
  | .error _ => some stats
  | .ok req =>
    let r := net req
    match extractDomain lib endpoint.URL with
    | none => none
    | some domain =>
      let stats1 :=
        if (stats.find domain).isNone then stats.put domain { Success := 0, Total := 0 }
        else stats
      match stats1.find domain with
      | none => none
      | some st =>
        let st1 : DomainStats := { st with Total := intAdd st.Total 1 }
        if checkHealth.healthy r then
          some (stats1.put domain { st1 with Success := intAdd st1.Success 1 })
        else
          some (stats1.put domain st1)

/-- One iteration of the loop of `logResults` (lines 118-123): the text printed
for one bucket. -/
def logResults.line (domain : String) (stat : DomainStats) : Option String :=
  if stat.Total = 0 then
    some (domain ++ " has 0% availability\n")
  else
    match intDiv (intMul 100 stat.Success) stat.Total with
    | none => none
    | some percentage =>
      some (domain ++ " has " ++ toString percentage ++ "% availability\n")

/-- Function `logResults` (lines 116-125): the texts printed, one per bucket. -/
def logResults : Stats → Option (List String)
  | [] => some []
  | (domain, stat) :: rest =>
    match logResults.line domain stat with
    | none => none
    | some text =>
      match logResults rest with
      | none => none
      | some texts => some (text :: texts)

/-- A sequence of `checkHealth` calls, each with its endpoint and the behaviour
of the network during it. -/
def runChecks (lib : Lib) : List (Endpoint × Net) → Stats → Option Stats
  | [], stats => some stats
  | (endpoint, net) :: rest, stats =>
    match checkHealth lib net endpoint stats with
    | none => none
    | some stats1 => runChecks lib rest stats1

/-- The inner loop of `main` (lines 51-53): one pass over the endpoints, the
i-th call meeting the i-th network behaviour. -/
def mainPass (lib : Lib) (endpoints : List Endpoint) (nets : List Net) (stats : Stats) :
    Option Stats :=
  runChecks lib (endpoints.zip nets) stats

/-- The outer loop of `main` (lines 50-56) for as many cycles as network
behaviours are given: the final map and the report printed by each cycle. -/
def mainLoop (lib : Lib) (endpoints : List Endpoint) :
    List (List Net) → Stats → Option (Stats × List (List String))
  | [], stats => some (stats, [])
  | nets :: rest, stats =>
    match mainPass lib endpoints nets stats with
    | none => none
    | some stats1 =>
      match logResults stats1 with
      | none => none
      | some report =>
        match mainLoop lib endpoints rest stats1 with
        | none => none
        | some (stats2, reports) => some (stats2, report :: reports)

/-- Function `main` after the configuration is read (lines 48-56): `initStats`
on the empty global map, then the loop. -/
def main (lib : Lib) (endpoints : List Endpoint) (cycles : List (List Net)) :
    Option (Stats × List (List String)) :=
  match initStats lib endpoints [] with
  | none => none
  | some stats => mainLoop lib endpoints cycles stats

/-! ## Quantities the specification speaks of -/

/-- The call is a check that is not skipped (its request is constructed) and
whose endpoint maps to the domain. -/
def attempted (lib : Lib) (domain : String) (call : Endpoint × Net) : Bool :=
  match checkHealth.request lib call.1 with
  | .error _ => false
  | .ok _ => decide (extractDomain lib call.1.URL = some domain)

/-- The call is a non-skipped check on the domain that is classified healthy. -/
def attemptedHealthy (lib : Lib) (domain : String) (call : Endpoint × Net) : Bool :=
  match checkHealth.request lib call.1 with
  | .error _ => false
  | .ok req =>
    decide (extractDomain lib call.1.URL = some domain) && checkHealth.healthy (call.2 req)

/-- Number of non-skipped checks of the sequence whose endpoint maps to the
domain. -/
def countChecks (lib : Lib) (domain : String) (calls : List (Endpoint × Net)) : Nat :=
  calls.countP (attempted lib domain)

/-- Number of those checks that are classified healthy. -/
def countHealthy (lib : Lib) (domain : String) (calls : List (Endpoint × Net)) : Nat :=
  calls.countP (attemptedHealthy lib domain)

/-- All the calls of `checkHealth` the loop of `main` makes during the given
cycles, in order. -/
def allCalls (endpoints : List Endpoint) : List (List Net) → List (Endpoint × Net)
  | [] => []
  | nets :: rest => endpoints.zip nets ++ allCalls endpoints rest

/-- The invariant of the data model: `0 ≤ success ≤ total` in every bucket. -/
def StatsInv (stats : Stats) : Prop :=
  ∀ p ∈ stats, 0 ≤ p.2.Success ∧ p.2.Success ≤ p.2.Total

instance : DecidablePred StatsInv := fun stats => by
  unfold StatsInv
  infer_instance

/-! ## A library instance for concrete runs

Values of `url.Parse` and `http.NewRequest` at the URLs used in the examples
of this file, as the Go standard library computes them. -/

/-- Table of `url.Parse` results (the `Host` field) on the example URLs; every
other string is treated as unparseable. -/
def sampleParse : String → Except String URL
  | "https://a.test/x" => .ok { Host := "a.test" }
  | "https://a.test/y" => .ok { Host := "a.test" }
  | "http://b.test:8080/" => .ok { Host := "b.test:8080" }
  | "http://b.test:9090/" => .ok { Host := "b.test:9090" }
  | "http://[::1]:8080/" => .ok { Host := "[::1]:8080" }
  | "http://[::1]/" => .ok { Host := "[::1]" }
  | "http://[::2]:8080/" => .ok { Host := "[::2]:8080" }
  | "http://[::1" => .error "missing closing bracket in host"
  | _ => .error "parse error"

/-- Library instance: ASCII upper-casing, the table above for `url.Parse`, and
`http.NewRequest` failing exactly when the URL does not parse. -/
def sampleLib : Lib where
  urlParse := sampleParse
  toUpperRune := fun c => if c.toNat < 128 then c.toUpper else c
  toUpperRune_ascii := fun c h => by simp [h]
  newRequestErr := fun _ url _ =>
    match sampleParse url with
    | .ok _ => none
    | .error e => some e
  canonicalHeaderKey := id


/-- Network behaviour: status 200 after 50 ms. -/
def netOk : Net := fun _ =>
  { resp := some { StatusCode := 200 }, err := none, elapsed := 50 * 1000000 }

/-- Network behaviour: the client gives up at its timeout. -/
def netTimeout : Net := fun _ =>
  { resp := none, err := some "context deadline exceeded", elapsed := 500 * 1000000 }

/-- First endpoint of the scenario of the specification. -/
def sampleX : Endpoint :=
  { Name := "x", URL := "https://a.test/x", Method := "", Headers := [], Body := "" }

/-- Second endpoint of the scenario of the specification. -/
def sampleY : Endpoint :=
  { Name := "y", URL := "https://a.test/y", Method := "POST", Headers := [], Body := "\x7b\x7d" }

/-- The two endpoints of the scenario of the specification. -/
def sampleEndpoints : List Endpoint := [sampleX, sampleY]

/-! ## Machine integers: facts -/

theorem wrapInt_of_inRange (x : Int) (h : InRange x) : wrapInt x = x := by
  unfold InRange minInt maxInt at h
  unfold wrapInt
  omega

theorem wrapInt_inRange (x : Int) : InRange (wrapInt x) := by
  unfold InRange minInt maxInt wrapInt
  omega

theorem wrapInt_add_wrapInt (a b : Int) : wrapInt (wrapInt a + b) = wrapInt (a + b) := by
  unfold wrapInt
  omega

theorem intDiv_eq_some (a b : Int) (hb : b ≠ 0) : intDiv a b = some (wrapInt (Int.tdiv a b)) := by
  simp [intDiv, hb]

/-! ## Reporting: facts -/

theorem line_total (domain : String) (stat : DomainStats) :
    ∃ text, logResults.line domain stat = some text := by
  unfold logResults.line
  by_cases h : stat.Total = 0
  · simp [h]
  · simp [h, intDiv_eq_some _ _ h]

theorem logResults_spec (stats : Stats) :
    ∃ out, logResults stats = some out ∧ out.length = stats.length ∧
      ∀ i domain stat, stats.get? i = some (domain, stat) →
        ∃ text, logResults.line domain stat = some text ∧ out.get? i = some text := by
  induction stats with
  | nil => exact ⟨[], rfl, rfl, by simp⟩
  | cons p rest ih =>
    obtain ⟨d, st⟩ := p
    obtain ⟨out, hout, hlen, hget⟩ := ih
    obtain ⟨text, htext⟩ := line_total d st
    refine ⟨text :: out, by simp [logResults, htext, hout], by simp [hlen], ?_⟩
    intro i domain stat hi
    cases i with
    | zero =>
      simp at hi
      obtain ⟨rfl, rfl⟩ := hi
      exact ⟨text, htext, by simp⟩
    | succ j =>
      simp at hi
      obtain ⟨t, ht, hj⟩ := hget j domain stat (by simpa using hi)
      exact ⟨t, ht, by simpa using hj⟩

theorem line_of_pos (domain : String) (S N : Int) (hN : 0 < N) (hS : 0 ≤ S)
    (hmul : 100 * S ≤ maxInt) :
    logResults.line domain { Success := S, Total := N } =
      some (domain ++ " has " ++ toString (100 * S / N) ++ "% availability\n") := by
  have hne : N ≠ 0 := by omega
  have h1 : intMul 100 S = 100 * S := by
    apply wrapInt_of_inRange
    unfold InRange minInt
    unfold maxInt at hmul ⊢
    omega
  have hq : Int.tdiv (100 * S) N = 100 * S / N :=
    Int.tdiv_eq_ediv (by omega) (by omega)
  have hq0 : 0 ≤ 100 * S / N := Int.ediv_nonneg (by omega) (by omega)
  have hq1 : 100 * S / N ≤ 100 * S := Int.ediv_le_self _ (by omega)
  have h2 : wrapInt (100 * S / N) = 100 * S / N := by
    apply wrapInt_of_inRange
    unfold InRange minInt
    unfold maxInt at hmul ⊢
    omega
  simp [logResults.line, hne, h1, intDiv_eq_some _ _ hne, hq, h2]

/-! ## Splitting and `extractDomain`: facts -/

theorem splitChars_ne_nil (sep : Char) (cs : List Char) : splitChars sep cs ≠ [] := by
  induction cs with
  | nil => simp [splitChars]
  | cons c cs ih =>
    unfold splitChars
    split
    · simp
    · split <;> simp

theorem splitChars_head (sep : Char) (cs : List Char) :
    (splitChars sep cs).head? = some (cs.takeWhile (fun c => c != sep)) := by
  induction cs with
  | nil => simp [splitChars]
  | cons c cs ih =>
    unfold splitChars
    by_cases h : c = sep
    · simp [h]
    · simp only [h, if_false]
      cases hs : splitChars sep cs with
      | nil => exact absurd hs (splitChars_ne_nil sep cs)
      | cons p ps =>
        rw [hs] at ih
        simp at ih
        have hb : (c != sep) = true := by simp [h]
        simp [List.takeWhile, hb, ih]

theorem index_split (host : String) (sep : Char) :
    index (strings.Split host sep) 0 =
      some (String.mk (host.data.takeWhile (fun c => c != sep))) := by
  have h := splitChars_head sep host.data
  unfold index strings.Split
  cases hs : splitChars sep host.data with
  | nil => exact absurd hs (splitChars_ne_nil sep host.data)
  | cons p ps =>
    rw [hs] at h
    simp at h
    simp [h]

theorem extractDomain_total (lib : Lib) (raw : String) :
    ∃ key, extractDomain lib raw = some key := by
  unfold extractDomain
  cases lib.urlParse raw with
  | error e => exact ⟨raw, rfl⟩
  | ok parsed =>
    by_cases h : strings.Contains parsed.Host ':' = true
    · simp [h, index_split]
    · simp [h]

/-! ## The map: facts -/

theorem find_put_same (s : Stats) (d : String) (v : DomainStats) :
    (s.put d v).find d = some v := by
  induction s with
  | nil => simp [Stats.put, Stats.find]
  | cons p rest ih =>
    obtain ⟨k, w⟩ := p
    by_cases h : k = d
    · simp [Stats.put, Stats.find, h]
    · simp [Stats.put, Stats.find, h, ih]

theorem find_put_other (s : Stats) (d d1 : String) (v : DomainStats) (h : d1 ≠ d) :
    (s.put d v).find d1 = s.find d1 := by
  induction s with
  | nil =>
    have h2 : ¬ d = d1 := fun e => h e.symm
    simp [Stats.put, Stats.find, h2]
  | cons p rest ih =>
    obtain ⟨k, w⟩ := p
    by_cases hk : k = d
    · subst hk
      have h2 : ¬ k = d1 := fun e => h e.symm
      simp [Stats.put, Stats.find, h2]
    · by_cases hk1 : k = d1
      · subst hk1
        simp [Stats.put, Stats.find, hk]
      · simp [Stats.put, Stats.find, hk, hk1, ih]

theorem mem_put (s : Stats) (d : String) (v : DomainStats) (x : String × DomainStats)
    (hx : x ∈ s.put d v) : x ∈ s ∨ x = (d, v) := by
  induction s with
  | nil =>
    simp [Stats.put] at hx
    exact Or.inr hx
  | cons p rest ih =>
    obtain ⟨k, w⟩ := p
    by_cases hk : k = d
    · simp [Stats.put, hk] at hx
      rcases hx with hx | hx
      · exact Or.inr hx
      · exact Or.inl (List.mem_cons_of_mem _ hx)
    · simp [Stats.put, hk] at hx
      rcases hx with hx | hx
      · exact Or.inl (by simp [hx])
      · rcases ih hx with h1 | h1
        · exact Or.inl (List.mem_cons_of_mem _ h1)
        · exact Or.inr h1

theorem find_isSome_iff_mem_keys (s : Stats) (d : String) :
    (s.find d).isSome = true ↔ d ∈ s.keys := by
  induction s with
  | nil => simp [Stats.find, Stats.keys]
  | cons p rest ih =>
    obtain ⟨k, w⟩ := p
    by_cases hk : k = d
    · simp [Stats.find, Stats.keys, hk]
    · have hk2 : ¬ d = k := fun e => hk e.symm
      simp only [Stats.keys] at ih
      simp [Stats.find, Stats.keys, hk, hk2, ih]

theorem keys_put_of_find_none (s : Stats) (d : String) (v : DomainStats)
    (h : s.find d = none) : (s.put d v).keys = s.keys ++ [d] := by
  induction s with
  | nil => simp [Stats.put, Stats.keys]
  | cons p rest ih =>
    obtain ⟨k, w⟩ := p
    by_cases hk : k = d
    · simp [Stats.find, hk] at h
    · simp [Stats.find, hk] at h
      have := ih h
      simp only [Stats.keys] at this
      simp [Stats.put, Stats.keys, hk, this]

theorem keys_put_of_find_some (s : Stats) (d : String) (v w : DomainStats)
    (h : s.find d = some w) : (s.put d v).keys = s.keys := by
  induction s with
  | nil => simp [Stats.find] at h
  | cons p rest ih =>
    obtain ⟨k, u⟩ := p
    by_cases hk : k = d
    · simp [Stats.put, Stats.keys, hk]
    · simp [Stats.find, hk] at h
      have := ih h
      simp only [Stats.keys] at this
      simp [Stats.put, Stats.keys, hk, this]

theorem find_of_mem (s : Stats) (hs : s.keys.Nodup) (d : String) (st : DomainStats)
    (h : (d, st) ∈ s) : s.find d = some st := by
  induction s with
  | nil => simp at h
  | cons p rest ih =>
    obtain ⟨k, u⟩ := p
    simp only [Stats.keys, List.map_cons, List.nodup_cons] at hs
    simp only [List.mem_cons] at h
    rcases h with h | h
    · injection h with h1 h2
      simp [Stats.find, h1, h2]
    · have hk : k ≠ d := by
        intro e
        apply hs.1
        rw [e]
        exact List.mem_map_of_mem Prod.fst h
      simp [Stats.find, hk]
      exact ih hs.2 h

theorem mem_of_find (s : Stats) (d : String) (st : DomainStats)
    (h : s.find d = some st) : (d, st) ∈ s := by
  induction s with
  | nil => simp [Stats.find] at h
  | cons p rest ih =>
    obtain ⟨k, u⟩ := p
    by_cases hk : k = d
    · simp [Stats.find, hk] at h
      simp [hk, h]
    · simp [Stats.find, hk] at h
      exact List.mem_cons_of_mem _ (ih h)

/-- On a host without colon followed by `:port`, `extractDomain` keeps the
host: the port is stripped for registered names and IPv4 literals. -/
theorem extractDomain_strips_port (lib : Lib) (raw host port : String)
    (hparse : lib.urlParse raw = .ok { Host := host ++ ":" ++ port })
    (hhost : ∀ c ∈ host.data, c ≠ ':') :
    extractDomain lib raw = some host := by
  unfold extractDomain
  rw [hparse]
  have hdata : (host ++ ":" ++ port).data = host.data ++ ':' :: port.data := by
    simp [String.data_append]
  have hc : strings.Contains (host ++ ":" ++ port) ':' = true := by
    unfold strings.Contains
    rw [hdata]
    simp
  simp only [hc, if_true, index_split, hdata]
  congr 1
  have : List.takeWhile (fun c => c != ':') (host.data ++ ':' :: port.data) = host.data := by
    rw [List.takeWhile_append_of_pos]
    · simp [List.takeWhile]
    · intro c hcm
      simpa using hhost c hcm
  rw [this]

theorem put_put (s : Stats) (d : String) (v w : DomainStats) :
    (s.put d v).put d w = s.put d w := by
  induction s with
  | nil => simp [Stats.put]
  | cons p rest ih =>
    obtain ⟨k, u⟩ := p
    by_cases hk : k = d
    · simp [Stats.put, hk]
    · simp [Stats.put, hk, ih]

theorem keys_nodup_put (s : Stats) (d : String) (v : DomainStats) (hs : s.keys.Nodup) :
    (s.put d v).keys.Nodup := by
  cases hf : s.find d with
  | some w => rw [keys_put_of_find_some s d v w hf]; exact hs
  | none =>
    rw [keys_put_of_find_none s d v hf]
    have hnot : d ∉ s.keys := by
      intro hmem
      have := (find_isSome_iff_mem_keys s d).mpr hmem
      simp [hf] at this
    rw [List.nodup_append]
    refine ⟨hs, by simp, ?_⟩
    intro a ha hb
    simp at hb
    subst hb
    exact hnot ha

theorem mem_keys_put (s : Stats) (d : String) (v : DomainStats) (k : String) :
    k ∈ (s.put d v).keys ↔ k ∈ s.keys ∨ k = d := by
  rw [← find_isSome_iff_mem_keys, ← find_isSome_iff_mem_keys]
  by_cases h : k = d
  · subst h
    simp [find_put_same]
  · simp [find_put_other s d k v h, h]

/-! ## One call of `checkHealth`: facts -/

theorem checkHealth_skip (lib : Lib) (net : Net) (ep : Endpoint) (s : Stats) (e : String)
    (h : checkHealth.request lib ep = .error e) : checkHealth lib net ep s = some s := by
  simp [checkHealth, h]

theorem checkHealth_ok (lib : Lib) (net : Net) (ep : Endpoint) (s : Stats) (req : Request)
    (dm : String) (h : checkHealth.request lib ep = .ok req)
    (hd : extractDomain lib ep.URL = some dm) :
    checkHealth lib net ep s =
      some (s.put dm
        { Success :=
            if checkHealth.healthy (net req) then
              intAdd ((s.find dm).getD { Success := 0, Total := 0 }).Success 1
            else ((s.find dm).getD { Success := 0, Total := 0 }).Success,
          Total := intAdd ((s.find dm).getD { Success := 0, Total := 0 }).Total 1 }) := by
  unfold checkHealth
  simp only [h, hd]
  cases hf : s.find dm with
  | none =>
    simp only [Option.isNone_none, if_true, find_put_same, Option.getD_none]
    by_cases hh : checkHealth.healthy (net req) = true
    · simp [hh, put_put]
    · simp [hh, put_put]
  | some st =>
    simp only [Option.isNone_some, Bool.false_eq_true, if_false, hf, Option.getD_some]
    by_cases hh : checkHealth.healthy (net req) = true
    · simp [hh]
    · simp [hh]

theorem checkHealth_total (lib : Lib) (net : Net) (ep : Endpoint) (s : Stats) :
    ∃ s1, checkHealth lib net ep s = some s1 := by
  cases h : checkHealth.request lib ep with
  | error e => exact ⟨s, checkHealth_skip lib net ep s e h⟩
  | ok req =>
    obtain ⟨dm, hd⟩ := extractDomain_total lib ep.URL
    exact ⟨_, checkHealth_ok lib net ep s req dm h hd⟩

/-! ## `initStats`: facts -/

theorem initStats_spec (lib : Lib) (eps : List Endpoint) (s0 : Stats) :
    ∃ s, initStats lib eps s0 = some s ∧
      (∀ D st, s0.find D = some st → s.find D = some st) ∧
      (∀ D, s0.find D = none → (∃ ep ∈ eps, extractDomain lib ep.URL = some D) →
        s.find D = some { Success := 0, Total := 0 }) ∧
      (∀ D, s0.find D = none → (¬ ∃ ep ∈ eps, extractDomain lib ep.URL = some D) →
        s.find D = none) ∧
      (s0.keys.Nodup → s.keys.Nodup) ∧
      (∀ x ∈ s, x ∈ s0 ∨ x.2 = { Success := 0, Total := 0 }) := by
  induction eps generalizing s0 with
  | nil =>
    refine ⟨s0, rfl, fun _ _ h => h, ?_, fun _ h _ => h, fun h => h, fun x hx => Or.inl hx⟩
    intro D _ h
    simp at h
  | cons ep rest ih =>
    obtain ⟨dm, hd⟩ := extractDomain_total lib ep.URL
    cases hf : s0.find dm with
    | some w =>
      obtain ⟨s, hs, h1, h2, h3, h4, h5⟩ := ih s0
      refine ⟨s, by simp [initStats, hd, hf, hs], h1, ?_, ?_, h4, h5⟩
      · intro D hD hex
        obtain ⟨e, he, hed⟩ := hex
        simp only [List.mem_cons] at he
        rcases he with he | he
        · subst he
          rw [hd] at hed
          injection hed with hed
          subst hed
          rw [hf] at hD
          cases hD
        · exact h2 D hD ⟨e, he, hed⟩
      · intro D hD hex
        apply h3 D hD
        intro hex2
        obtain ⟨e, he, hed⟩ := hex2
        exact hex ⟨e, List.mem_cons_of_mem _ he, hed⟩
    | none =>
      obtain ⟨s, hs, h1, h2, h3, h4, h5⟩ := ih (s0.put dm { Success := 0, Total := 0 })
      refine ⟨s, by simp [initStats, hd, hf, hs], ?_, ?_, ?_, ?_, ?_⟩
      · intro D st hD
        have hne : D ≠ dm := by
          intro e
          subst e
          rw [hf] at hD
          cases hD
        exact h1 D st (by rw [find_put_other _ _ _ _ hne]; exact hD)
      · intro D hD hex
        by_cases hne : D = dm
        · subst hne
          exact h1 D _ (find_put_same _ _ _)
        · obtain ⟨e, he, hed⟩ := hex
          simp only [List.mem_cons] at he
          rcases he with he | he
          · subst he
            rw [hd] at hed
            injection hed with hed
            exact absurd hed.symm hne
          · exact h2 D (by rw [find_put_other _ _ _ _ hne]; exact hD) ⟨e, he, hed⟩
      · intro D hD hex
        have hne : D ≠ dm := by
          intro e
          subst e
          exact hex ⟨ep, by simp, hd⟩
        apply h3 D (by rw [find_put_other _ _ _ _ hne]; exact hD)
        intro hex2
        obtain ⟨e, he, hed⟩ := hex2
        exact hex ⟨e, List.mem_cons_of_mem _ he, hed⟩
      · intro hn
        exact h4 (keys_nodup_put _ _ _ hn)
      · intro x hx
        rcases h5 x hx with h | h
        · rcases mem_put _ _ _ _ h with h6 | h6
          · exact Or.inl h6
          · exact Or.inr (by rw [h6])
        · exact Or.inr h

/-! ## Sequences of calls: facts -/

theorem attemptedHealthy_le (lib : Lib) (D : String) (calls : List (Endpoint × Net)) :
    countHealthy lib D calls ≤ countChecks lib D calls := by
  unfold countHealthy countChecks
  apply List.countP_mono_left
  intro c _ hc
  unfold attemptedHealthy at hc
  unfold attempted
  cases h : checkHealth.request lib c.1 with
  | error e => simp [h] at hc
  | ok req =>
    simp only [h, Bool.and_eq_true] at hc
    exact hc.1

theorem counts_cons_skip (lib : Lib) (D : String) (ep : Endpoint) (net : Net)
    (rest : List (Endpoint × Net)) (e : String) (h : checkHealth.request lib ep = .error e) :
    countChecks lib D ((ep, net) :: rest) = countChecks lib D rest ∧
      countHealthy lib D ((ep, net) :: rest) = countHealthy lib D rest := by
  simp [countChecks, countHealthy, List.countP_cons, attempted, attemptedHealthy, h]

theorem counts_cons_other (lib : Lib) (D dm : String) (ep : Endpoint) (net : Net)
    (rest : List (Endpoint × Net)) (hd : extractDomain lib ep.URL = some dm) (hne : D ≠ dm) :
    countChecks lib D ((ep, net) :: rest) = countChecks lib D rest ∧
      countHealthy lib D ((ep, net) :: rest) = countHealthy lib D rest := by
  have h2 : ¬ dm = D := fun e => hne e.symm
  cases h : checkHealth.request lib ep <;>
    simp [countChecks, countHealthy, List.countP_cons, attempted, attemptedHealthy, h, hd, h2]

theorem counts_cons_same (lib : Lib) (dm : String) (ep : Endpoint) (net : Net)
    (rest : List (Endpoint × Net)) (req : Request) (h : checkHealth.request lib ep = .ok req)
    (hd : extractDomain lib ep.URL = some dm) :
    countChecks lib dm ((ep, net) :: rest) = countChecks lib dm rest + 1 ∧
      countHealthy lib dm ((ep, net) :: rest) =
        countHealthy lib dm rest + (if checkHealth.healthy (net req) then 1 else 0) := by
  simp [countChecks, countHealthy, List.countP_cons, attempted, attemptedHealthy, h, hd]

/-- The counters of a domain after a sequence of calls, from those before it. -/
theorem runChecks_spec (lib : Lib) (calls : List (Endpoint × Net)) (s0 : Stats) :
    ∃ s, runChecks lib calls s0 = some s ∧
      (s0.keys.Nodup → s.keys.Nodup) ∧
      (∀ k, k ∈ s.keys ↔ k ∈ s0.keys ∨ 0 < countChecks lib k calls) ∧
      ∀ D, s.find D =
        if countChecks lib D calls = 0 then s0.find D
        else some
          { Success :=
              if countHealthy lib D calls = 0 then
                ((s0.find D).getD { Success := 0, Total := 0 }).Success
              else wrapInt (((s0.find D).getD { Success := 0, Total := 0 }).Success +
                (countHealthy lib D calls : Int)),
            Total := wrapInt (((s0.find D).getD { Success := 0, Total := 0 }).Total +
                (countChecks lib D calls : Int)) } := by
  induction calls generalizing s0 with
  | nil =>
    refine ⟨s0, rfl, fun h => h, ?_, ?_⟩
    · intro k; simp [countChecks]
    · intro D; simp [countChecks]
  | cons call rest ih =>
    obtain ⟨ep, net⟩ := call
    cases h : checkHealth.request lib ep with
    | error e =>
      obtain ⟨s, hs, hn, hk, hf⟩ := ih s0
      refine ⟨s, by simp [runChecks, checkHealth_skip lib net ep s0 e h, hs], hn, ?_, ?_⟩
      · intro k
        rw [(counts_cons_skip lib k ep net rest e h).1]
        exact hk k
      · intro D
        rw [(counts_cons_skip lib D ep net rest e h).1, (counts_cons_skip lib D ep net rest e h).2]
        exact hf D
    | ok req =>
      obtain ⟨dm, hd⟩ := extractDomain_total lib ep.URL
      have hstep := checkHealth_ok lib net ep s0 req dm h hd
      obtain ⟨s, hs, hn, hk, hf⟩ := ih (s0.put dm
        { Success :=
            if checkHealth.healthy (net req) then
              intAdd ((s0.find dm).getD { Success := 0, Total := 0 }).Success 1
            else ((s0.find dm).getD { Success := 0, Total := 0 }).Success,
          Total := intAdd ((s0.find dm).getD { Success := 0, Total := 0 }).Total 1 })
      refine ⟨s, by simp [runChecks, hstep, hs], ?_, ?_, ?_⟩
      · intro h0
        exact hn (keys_nodup_put _ _ _ h0)
      · intro k
        rw [hk k, mem_keys_put]
        by_cases hkd : k = dm
        · subst hkd
          rw [(counts_cons_same lib k ep net rest req h hd).1]
          simp
        · rw [(counts_cons_other lib k dm ep net rest hd hkd).1]
          simp [hkd]
      · intro D
        rw [hf D]
        by_cases hD : D = dm
        · subst hD
          obtain ⟨hc, hh⟩ := counts_cons_same lib D ep net rest req h hd
          have hle := attemptedHealthy_le lib D rest
          rw [hc, hh, find_put_same]
          simp only [Option.getD_some, intAdd]
          by_cases hc0 : countChecks lib D rest = 0
          · have hh0 : countHealthy lib D rest = 0 := by omega
            by_cases hhl : checkHealth.healthy (net req) = true
            · simp [hc0, hh0, hhl]
            · simp [hc0, hh0, hhl]
          · by_cases hhl : checkHealth.healthy (net req) = true
            · by_cases hh0 : countHealthy lib D rest = 0
              · simp [hc0, hh0, hhl, wrapInt_add_wrapInt]
                ring_nf
              · simp [hc0, hh0, hhl, wrapInt_add_wrapInt]
                constructor <;> ring_nf
            · by_cases hh0 : countHealthy lib D rest = 0
              · simp [hc0, hh0, hhl, wrapInt_add_wrapInt]
                ring_nf
              · simp [hc0, hh0, hhl, wrapInt_add_wrapInt]
                ring_nf
        · obtain ⟨hc, hh⟩ := counts_cons_other lib D dm ep net rest hd hD
          rw [hc, hh, find_put_other _ _ _ _ hD]

theorem runChecks_append (lib : Lib) (c1 c2 : List (Endpoint × Net)) (s0 s1 : Stats)
    (h : runChecks lib c1 s0 = some s1) :
    runChecks lib (c1 ++ c2) s0 = runChecks lib c2 s1 := by
  induction c1 generalizing s0 with
  | nil =>
    simp [runChecks] at h
    subst h
    rfl
  | cons call rest ih =>
    obtain ⟨ep, net⟩ := call
    obtain ⟨sm, hsm⟩ := checkHealth_total lib net ep s0
    simp only [List.cons_append, runChecks, hsm] at h ⊢
    exact ih sm h

theorem runChecks_total (lib : Lib) (calls : List (Endpoint × Net)) (s0 : Stats) :
    ∃ s, runChecks lib calls s0 = some s := by
  obtain ⟨s, hs, _⟩ := runChecks_spec lib calls s0
  exact ⟨s, hs⟩

/-- The loop of `main` ends every cycle in the state the sequence of all its
calls leads to, and prints what `logResults` gives in the state after each
pass. -/
theorem mainLoop_spec (lib : Lib) (eps : List Endpoint) (cycles : List (List Net))
    (s0 : Stats) :
    ∃ s reports, mainLoop lib eps cycles s0 = some (s, reports) ∧
      runChecks lib (allCalls eps cycles) s0 = some s ∧
      reports.length = cycles.length ∧
      ∀ report ∈ reports, ∃ pre : List (List Net), ∃ sp,
        runChecks lib (allCalls eps pre) s0 = some sp ∧ logResults sp = some report := by
  induction cycles generalizing s0 with
  | nil => exact ⟨s0, [], rfl, rfl, rfl, by simp⟩
  | cons nets rest ih =>
    obtain ⟨s1, hs1⟩ := runChecks_total lib (eps.zip nets) s0
    obtain ⟨report, hrep, _⟩ := logResults_spec s1
    obtain ⟨s, reports, hloop, hrun, hlen, hreports⟩ := ih s1
    refine ⟨s, report :: reports, ?_, ?_, by simp [hlen], ?_⟩
    · simp [mainLoop, mainPass, hs1, hrep, hloop]
    · simp only [allCalls]
      rw [runChecks_append lib _ _ s0 s1 hs1]
      exact hrun
    · intro r hr
      simp only [List.mem_cons] at hr
      rcases hr with hr | hr
      · subst hr
        refine ⟨[nets], s1, ?_, hrep⟩
        simp only [allCalls, List.append_nil]
        exact hs1
      · obtain ⟨pre, sp, hsp, hlog⟩ := hreports r hr
        refine ⟨nets :: pre, sp, ?_, hlog⟩
        simp only [allCalls]
        rw [runChecks_append lib _ _ s0 s1 hs1]
        exact hsp

theorem mem_allCalls (eps : List Endpoint) (cycles : List (List Net)) (c : Endpoint × Net)
    (h : c ∈ allCalls eps cycles) : c.1 ∈ eps := by
  induction cycles with
  | nil => simp [allCalls] at h
  | cons nets rest ih =>
    simp only [allCalls, List.mem_append] at h
    rcases h with h | h
    · obtain ⟨a, b⟩ := c
      exact (List.of_mem_zip h).1
    · exact ih h

theorem line_form (domain : String) (stat : DomainStats) (text : String)
    (h : logResults.line domain stat = some text) :
    ∃ p : Int, text = domain ++ " has " ++ toString p ++ "% availability\n" := by
  unfold logResults.line at h
  by_cases h0 : stat.Total = 0
  · simp only [h0, if_true] at h
    injection h with h
    refine ⟨0, ?_⟩
    rw [← h, String.append_assoc, String.append_assoc]
    rfl
  · simp only [h0, if_false, intDiv_eq_some _ _ h0] at h
    injection h with h
    exact ⟨_, h.symm⟩

/-! ## Claims -/

/-- Claim C1, in the range of Go's int: for a bucket `(S, N)` of a domain `D`
with `N > 0`, `0 ≤ S ≤ N` and `100 * S` not above the largest `int`,
`logResults` prints for that bucket exactly `D has p% availability` where `p`
is the floor of `100 * S / N` (that is `p * N ≤ 100 * S < (p + 1) * N`), and
`0 ≤ p ≤ 100`. -/
theorem C1_availability_line (stats : Stats) (i : Nat) (D : String) (S N : Int)
    (hbucket : stats.get? i = some (D, { Success := S, Total := N }))
    (hN : 0 < N) (hS : 0 ≤ S) (hSN : S ≤ N) (hmul : 100 * S ≤ maxInt) :
    ∃ out, logResults stats = some out ∧ out.length = stats.length ∧
      out.get? i = some (D ++ " has " ++ toString (100 * S / N) ++ "% availability\n") ∧
      (100 * S / N) * N ≤ 100 * S ∧ 100 * S < (100 * S / N + 1) * N ∧
      0 ≤ 100 * S / N ∧ 100 * S / N ≤ 100 := by
  obtain ⟨out, hout, hlen, hget⟩ := logResults_spec stats
  obtain ⟨text, htext, hi⟩ := hget i D _ hbucket
  rw [line_of_pos D S N hN hS hmul] at htext
  injection htext with htext
  refine ⟨out, hout, hlen, by rw [hi, htext], ?_, ?_, ?_, ?_⟩
  · exact Int.ediv_mul_le _ (by omega)
  · have := Int.lt_ediv_add_one_mul_self (100 * S) hN
    linarith
  · exact Int.ediv_nonneg (by omega) (by omega)
  · apply Int.ediv_le_of_le_mul hN
    linarith

/-- Claim C1, instance: a bucket with 2 successes out of 3 attempts is
reported as 66%. -/
theorem C1_availability_line_witness :
    logResults [("a.test", { Success := 2, Total := 3 })] =
        some ["a.test has 66% availability\n"] ∧
      ∃ out, logResults [("a.test", { Success := 2, Total := 3 })] = some out ∧
        out.length = [("a.test", ({ Success := 2, Total := 3 } : DomainStats))].length ∧
        out.get? 0 = some ("a.test" ++ " has " ++ toString ((100 * 2 / 3 : Int)) ++
          "% availability\n") ∧
        ((100 * 2 / 3 : Int)) * 3 ≤ 100 * 2 ∧ (100 * 2 : Int) < (100 * 2 / 3 + 1) * 3 ∧
        (0 : Int) ≤ 100 * 2 / 3 ∧ (100 * 2 / 3 : Int) ≤ 100 :=
  ⟨by decide,
   C1_availability_line [("a.test", { Success := 2, Total := 3 })] 0 "a.test" 2 3 rfl
     (by decide) (by decide) (by decide) (by decide)⟩

/-- Claim C1 as stated fails when `100 * S` exceeds the largest `int`: the
bucket `S = N = 92233720368547759` satisfies `N > 0` and `0 ≤ S ≤ N`, the floor
of `100 * S / N` is 100, and `logResults` prints -99%. -/
theorem C1_counterexample :
    (0 : Int) < 92233720368547759 ∧ InRange 92233720368547759 ∧
      (100 * 92233720368547759 / 92233720368547759 : Int) = 100 ∧
      logResults [("a.test", { Success := 92233720368547759, Total := 92233720368547759 })] =
        some ["a.test has -99% availability\n"] ∧
      logResults [("a.test", { Success := 92233720368547759, Total := 92233720368547759 })] ≠
        some ["a.test has 100% availability\n"] := by
  refine ⟨by decide, by unfold InRange minInt maxInt; decide, by decide, by decide, by decide⟩

/-- Claim C8: `logResults` returns for every map, with one text per bucket, and
for a bucket whose `Total` is 0, whatever its `Success`, the text is exactly
`<domain> has 0% availability`; the division, which would fail on this bucket,
is not evaluated. -/
theorem C8_zero_total :
    (∀ stats : Stats, ∃ out, logResults stats = some out ∧ out.length = stats.length) ∧
    (∀ (stats : Stats) (i : Nat) (domain : String) (stat : DomainStats),
      stats.get? i = some (domain, stat) → stat.Total = 0 →
      ∃ out, logResults stats = some out ∧
        out.get? i = some (domain ++ " has 0% availability\n") ∧
        logResults.line domain stat = some (domain ++ " has 0% availability\n") ∧
        intDiv (intMul 100 stat.Success) stat.Total = none) := by
  constructor
  · intro stats
    obtain ⟨out, hout, hlen, _⟩ := logResults_spec stats
    exact ⟨out, hout, hlen⟩
  · intro stats i domain stat hbucket h0
    obtain ⟨out, hout, _, hget⟩ := logResults_spec stats
    obtain ⟨text, htext, hi⟩ := hget i domain stat hbucket
    have hline : logResults.line domain stat = some (domain ++ " has 0% availability\n") := by
      simp [logResults.line, h0]
    rw [hline] at htext
    injection htext with htext
    exact ⟨out, hout, by rw [hi, htext], hline, by simp [intDiv, h0]⟩

/-- Claim C8, instance: a map with a never-attempted domain (and a bucket that
holds a stray `Success`) is reported without failure. -/
theorem C8_zero_total_witness :
    logResults [("a.test", { Success := 0, Total := 0 }), ("b.test", { Success := 7, Total := 0 })] =
        some ["a.test has 0% availability\n", "b.test has 0% availability\n"] ∧
      ∃ out, logResults [("a.test", { Success := 0, Total := 0 }),
          ("b.test", { Success := 7, Total := 0 })] = some out ∧
        out.get? 1 = some ("b.test" ++ " has 0% availability\n") ∧
        logResults.line "b.test" { Success := 7, Total := 0 } =
          some ("b.test" ++ " has 0% availability\n") ∧
        intDiv (intMul 100 ({ Success := 7, Total := 0 } : DomainStats).Success)
          ({ Success := 7, Total := 0 } : DomainStats).Total = none :=
  ⟨by decide,
   C8_zero_total.2 [("a.test", { Success := 0, Total := 0 }),
     ("b.test", { Success := 7, Total := 0 })] 1 "b.test" { Success := 7, Total := 0 } rfl rfl⟩

/-- Claim C9: `extractDomain` returns a key for every input and every behaviour
of the URL parser; the index `[0]` into the colon-split host exists for every
host; and when parsing fails the key is the raw input string. -/
theorem C9_extractDomain_total (lib : Lib) (raw : String) :
    (∃ key, extractDomain lib raw = some key) ∧
    (∀ host : String, ∃ first, index (strings.Split host ':') 0 = some first) ∧
    (∀ e, lib.urlParse raw = .error e → extractDomain lib raw = some raw) := by
  refine ⟨extractDomain_total lib raw, ?_, ?_⟩
  · intro host
    exact ⟨_, index_split host ':'⟩
  · intro e he
    simp [extractDomain, he]

/-- Claim C9, instance: a URL with an unclosed bracket does not parse and is
its own key. -/
theorem C9_extractDomain_total_witness :
    sampleLib.urlParse "http://[::1" = .error "missing closing bracket in host" ∧
      extractDomain sampleLib "http://[::1" = some "http://[::1" :=
  ⟨rfl, (C9_extractDomain_total sampleLib "http://[::1").2.2 _ rfl⟩

/-- Claim C5: when `http.NewRequest` fails for an endpoint, `checkHealth`
returns the map it was given, unchanged, so that every bucket, every counter
and the report are what they were. -/
theorem C5_construction_failure (lib : Lib) (net : Net) (ep : Endpoint) (stats : Stats)
    (e : String)
    (hfail : lib.newRequestErr (checkHealth.method lib ep) ep.URL (checkHealth.body lib ep)
      = some e) :
    checkHealth lib net ep stats = some stats ∧
      (∀ s1, checkHealth lib net ep stats = some s1 →
        s1.keys = stats.keys ∧ (∀ d, s1.find d = stats.find d) ∧
        logResults s1 = logResults stats) := by
  have hreq : checkHealth.request lib ep = .error e := by
    simp [checkHealth.request, hfail]
  have h := checkHealth_skip lib net ep stats e hreq
  refine ⟨h, ?_⟩
  intro s1 hs1
  rw [h] at hs1
  injection hs1 with hs1
  subst hs1
  exact ⟨rfl, fun _ => rfl, rfl⟩

/-- Claim C5, instance: an endpoint whose URL is rejected leaves a map with one
bucket as it is. -/
theorem C5_construction_failure_witness :
    checkHealth sampleLib netTimeout
        { Name := "bad", URL := "http://[::1", Method := "GET", Headers := [], Body := "" }
        [("a.test", { Success := 1, Total := 2 })] =
      some [("a.test", { Success := 1, Total := 2 })] :=
  (C5_construction_failure sampleLib netTimeout
    { Name := "bad", URL := "http://[::1", Method := "GET", Headers := [], Body := "" }
    [("a.test", { Success := 1, Total := 2 })] "missing closing bracket in host" rfl).1

/-- Claim C6 at the URL `http://[::1]:8080/`: the parser gives the host
`[::1]:8080`, and `extractDomain` returns the fragment `[`, which is neither
the address `::1` nor the bracketed host `[::1]`; the URL of another host,
`http://[::2]:8080/`, gets the same key. -/
theorem C6_ipv6_fragment (lib : Lib)
    (h1 : lib.urlParse "http://[::1]:8080/" = .ok { Host := "[::1]:8080" })
    (h2 : lib.urlParse "http://[::2]:8080/" = .ok { Host := "[::2]:8080" }) :
    extractDomain lib "http://[::1]:8080/" = some "[" ∧
      extractDomain lib "http://[::1]:8080/" ≠ some "::1" ∧
      extractDomain lib "http://[::1]:8080/" ≠ some "[::1]" ∧
      extractDomain lib "http://[::2]:8080/" = extractDomain lib "http://[::1]:8080/" := by
  have e1 : extractDomain lib "http://[::1]:8080/" = some "[" := by
    unfold extractDomain
    rw [h1]
    decide
  have e2 : extractDomain lib "http://[::2]:8080/" = some "[" := by
    unfold extractDomain
    rw [h2]
    decide
  rw [e1, e2]
  exact ⟨rfl, by decide, by decide, rfl⟩

/-- Claim C6, instance: the table of parser results has both URLs. -/
theorem C6_ipv6_fragment_witness :
    extractDomain sampleLib "http://[::1]:8080/" = some "[" ∧
      extractDomain sampleLib "http://b.test:8080/" = some "b.test" :=
  ⟨(C6_ipv6_fragment sampleLib rfl rfl).1, by decide⟩

/-- Claim C7: the request `checkHealth` builds has the method obtained by
trimming white space and upper-casing, with GET for the empty string; its
payload is the configured body when that method is POST, PUT or PATCH and the
body is not empty, and it has no payload otherwise. A GET request has none
whatever the body, the method ` post ` resolves to POST, and the outcome of the
check depends on the network only through this request. -/
theorem C7_request_body (lib : Lib) (ep : Endpoint) (req : Request)
    (hreq : checkHealth.request lib ep = .ok req) :
    req.Method =
        (if strings.ToUpper lib.toUpperRune (strings.TrimSpace ep.Method) = "" then "GET"
         else strings.ToUpper lib.toUpperRune (strings.TrimSpace ep.Method)) ∧
      req.Body =
        (if (req.Method = "POST" ∨ req.Method = "PUT" ∨ req.Method = "PATCH") ∧ ep.Body ≠ ""
         then some ep.Body else none) ∧
      (req.Method = "GET" → req.Body = none) ∧
      (ep.Method = " post " → req.Method = "POST") ∧
      (∀ (net1 net2 : Net) (stats : Stats), net1 req = net2 req →
        checkHealth lib net1 ep stats = checkHealth lib net2 ep stats) := by
  have hm : req.Method = checkHealth.method lib ep := by
    unfold checkHealth.request at hreq
    cases hc : lib.newRequestErr (checkHealth.method lib ep) ep.URL (checkHealth.body lib ep) with
    | some err => simp [hc] at hreq
    | none =>
      simp only [hc] at hreq
      injection hreq with hreq
      rw [← hreq]
  have hb : req.Body = checkHealth.body lib ep := by
    unfold checkHealth.request at hreq
    cases hc : lib.newRequestErr (checkHealth.method lib ep) ep.URL (checkHealth.body lib ep) with
    | some err => simp [hc] at hreq
    | none =>
      simp only [hc] at hreq
      injection hreq with hreq
      rw [← hreq]
  have hbody : req.Body =
      (if (req.Method = "POST" ∨ req.Method = "PUT" ∨ req.Method = "PATCH") ∧ ep.Body ≠ ""
       then some ep.Body else none) := by
    rw [hb, hm]
    unfold checkHealth.body
    by_cases h1 : ep.Body = ""
    · simp [h1]
    · by_cases h2 : (checkHealth.method lib ep = "POST" ∨ checkHealth.method lib ep = "PUT" ∨
          checkHealth.method lib ep = "PATCH")
      · simp [h1, h2]
      · simp [h1, h2]
  refine ⟨by rw [hm]; rfl, hbody, ?_, ?_, ?_⟩
  · intro hget
    rw [hbody, hget]
    simp
  · intro hpost
    rw [hm]
    unfold checkHealth.method
    rw [hpost]
    have ht : strings.TrimSpace " post " = "post" := by decide
    have hu : strings.ToUpper lib.toUpperRune "post" = "POST" := by
      unfold strings.ToUpper
      have hp := lib.toUpperRune_ascii 'p' (by decide)
      have ho := lib.toUpperRune_ascii 'o' (by decide)
      have hs := lib.toUpperRune_ascii 's' (by decide)
      have htt := lib.toUpperRune_ascii 't' (by decide)
      show String.mk (List.map lib.toUpperRune ['p', 'o', 's', 't']) = "POST"
      simp only [List.map, hp, ho, hs, htt]
      decide
    rw [ht, hu]
    decide
  · intro net1 net2 stats hnet
    unfold checkHealth
    simp only [hreq, hnet]

/-- Claim C7, instance: a body configured with the method ` post ` is sent, and
the same body configured with GET is not. -/
theorem C7_request_body_witness :
    checkHealth.request sampleLib
        { Name := "y", URL := "https://a.test/y", Method := " post ", Headers := [], Body := "\x7b\x7d" } =
      .ok { Method := "POST", URL := "https://a.test/y", Body := some "\x7b\x7d", Header := [] } ∧
    checkHealth.request sampleLib
        { Name := "y", URL := "https://a.test/y", Method := "get", Headers := [], Body := "\x7b\x7d" } =
      .ok { Method := "GET", URL := "https://a.test/y", Body := none, Header := [] } ∧
    ({ Method := "POST", URL := "https://a.test/y", Body := some "\x7b\x7d", Header := [] } : Request).Body
      = (if (("POST" : String) = "POST" ∨ ("POST" : String) = "PUT" ∨ ("POST" : String) = "PATCH") ∧
            ("\x7b\x7d" : String) ≠ "" then some "\x7b\x7d" else none) :=
  ⟨rfl, rfl,
   (C7_request_body sampleLib
      { Name := "y", URL := "https://a.test/y", Method := " post ", Headers := [], Body := "\x7b\x7d" }
      { Method := "POST", URL := "https://a.test/y", Body := some "\x7b\x7d", Header := [] }
      rfl).2.1⟩

theorem healthy_iff (r : DoResult) :
    checkHealth.healthy r = true ↔
      (r.err = none ∧ ∃ resp, r.resp = some resp ∧ 200 ≤ resp.StatusCode ∧
        resp.StatusCode ≤ 299 ∧ r.elapsed < 500000000) := by
  unfold checkHealth.healthy timeout500ms
  cases he : r.err with
  | some e => simp
  | none =>
    cases hr : r.resp with
    | none => simp
    | some resp => simp

/-- Claim C2, in the range of Go's int: for an endpoint whose request is
constructed, when the counters of its domain bucket are below the largest
`int`, one call of `checkHealth` returns, the bucket of the domain (created at
zero if absent) has `Total` one higher, `Success` is one higher if and only if
there is no transport error, the status code is in `[200, 299]` and the latency
is below 500 ms, `Success` is unchanged otherwise, and no other bucket
changes. -/
theorem C2_counters_step (lib : Lib) (net : Net) (ep : Endpoint) (stats : Stats)
    (req : Request) (hreq : checkHealth.request lib ep = .ok req)
    (hroom : ∀ dm st, extractDomain lib ep.URL = some dm → stats.find dm = some st →
      InRange st.Total ∧ InRange st.Success ∧ st.Total < maxInt ∧ st.Success < maxInt) :
    ∃ dm s1 st1, extractDomain lib ep.URL = some dm ∧
      checkHealth lib net ep stats = some s1 ∧ s1.find dm = some st1 ∧
      st1.Total = ((stats.find dm).getD { Success := 0, Total := 0 }).Total + 1 ∧
      (st1.Success = ((stats.find dm).getD { Success := 0, Total := 0 }).Success + 1 ↔
        ((net req).err = none ∧ ∃ resp, (net req).resp = some resp ∧
          200 ≤ resp.StatusCode ∧ resp.StatusCode ≤ 299 ∧ (net req).elapsed < 500000000)) ∧
      (¬ ((net req).err = none ∧ ∃ resp, (net req).resp = some resp ∧
          200 ≤ resp.StatusCode ∧ resp.StatusCode ≤ 299 ∧ (net req).elapsed < 500000000) →
        st1.Success = ((stats.find dm).getD { Success := 0, Total := 0 }).Success) ∧
      (∀ d, d ≠ dm → s1.find d = stats.find d) := by
  obtain ⟨dm, hd⟩ := extractDomain_total lib ep.URL
  have hstep := checkHealth_ok lib net ep stats req dm hreq hd
  have hr : InRange ((stats.find dm).getD { Success := 0, Total := 0 }).Total ∧
      InRange ((stats.find dm).getD { Success := 0, Total := 0 }).Success ∧
      ((stats.find dm).getD { Success := 0, Total := 0 }).Total < maxInt ∧
      ((stats.find dm).getD { Success := 0, Total := 0 }).Success < maxInt := by
    cases hf : stats.find dm with
    | none =>
      simp only [Option.getD_none]
      unfold InRange minInt maxInt
      decide
    | some st => exact hroom dm st hd hf
  obtain ⟨hT, hS, hTm, hSm⟩ := hr
  have hT1 : intAdd ((stats.find dm).getD { Success := 0, Total := 0 }).Total 1 =
      ((stats.find dm).getD { Success := 0, Total := 0 }).Total + 1 := by
    apply wrapInt_of_inRange
    unfold InRange minInt maxInt at *
    omega
  have hS1 : intAdd ((stats.find dm).getD { Success := 0, Total := 0 }).Success 1 =
      ((stats.find dm).getD { Success := 0, Total := 0 }).Success + 1 := by
    apply wrapInt_of_inRange
    unfold InRange minInt maxInt at *
    omega
  refine ⟨dm, _, _, hd, hstep, find_put_same _ _ _, hT1, ?_, ?_, ?_⟩
  · rw [← healthy_iff]
    by_cases hh : checkHealth.healthy (net req) = true
    · simp [hh, hS1]
    · simp [hh]
  · rw [← healthy_iff]
    intro hh
    simp [hh]
  · intro d hne
    exact find_put_other _ _ _ _ hne

/-- Claim C2, instances: the four outcomes named by the specification, and one
healthy check on an existing bucket. -/
theorem C2_counters_step_witness :
    checkHealth.healthy ⟨some ⟨200⟩, none, 100 * 1000000⟩ = true ∧
      checkHealth.healthy ⟨some ⟨200⟩, none, 500 * 1000000⟩ = false ∧
      checkHealth.healthy ⟨some ⟨200⟩, none, 600 * 1000000⟩ = false ∧
      checkHealth.healthy ⟨some ⟨503⟩, none, 50 * 1000000⟩ = false ∧
      checkHealth.healthy ⟨none, some "context deadline exceeded", 500 * 1000000⟩ = false ∧
      checkHealth sampleLib netOk
          { Name := "x", URL := "https://a.test/x", Method := "", Headers := [], Body := "" }
          [("a.test", { Success := 1, Total := 2 })] =
        some [("a.test", { Success := 2, Total := 3 })] ∧
      checkHealth sampleLib netTimeout
          { Name := "x", URL := "https://a.test/x", Method := "", Headers := [], Body := "" }
          [("a.test", { Success := 1, Total := 2 })] =
        some [("a.test", { Success := 1, Total := 3 })] ∧
      ∃ dm s1 st1, extractDomain sampleLib "https://a.test/x" = some dm ∧
        checkHealth sampleLib netOk
          { Name := "x", URL := "https://a.test/x", Method := "", Headers := [], Body := "" }
          [("a.test", { Success := 1, Total := 2 })] = some s1 ∧
        s1.find dm = some st1 ∧
        st1.Total = ((Stats.find [("a.test", { Success := 1, Total := 2 })] dm).getD
          { Success := 0, Total := 0 }).Total + 1 :=
  ⟨by decide, by decide, by decide, by decide, by decide, by decide, by decide,
   by
    obtain ⟨dm, s1, st1, h1, h2, h3, h4, _⟩ :=
      C2_counters_step sampleLib netOk
        { Name := "x", URL := "https://a.test/x", Method := "", Headers := [], Body := "" }
        [("a.test", { Success := 1, Total := 2 })]
        { Method := "GET", URL := "https://a.test/x", Body := none, Header := [] } rfl
        (by
          intro dm st hdm hst
          have hx : extractDomain sampleLib "https://a.test/x" = some "a.test" := by decide
          have hdm2 : extractDomain sampleLib "https://a.test/x" = some dm := hdm
          rw [hx] at hdm2
          injection hdm2 with hdm2
          subst hdm2
          have hst2 : some ({ Success := 1, Total := 2 } : DomainStats) = some st := hst
          injection hst2 with hst2
          subst hst2
          unfold InRange minInt maxInt
          decide)
    exact ⟨dm, s1, st1, h1, h2, h3, h4⟩⟩

/-- Claim C2 as stated fails on a bucket whose `Total` is the largest `int`:
the request is constructed, and the call leaves `Total` at the smallest `int`
instead of one higher. -/
theorem C2_counterexample :
    checkHealth.request sampleLib
        { Name := "x", URL := "https://a.test/x", Method := "", Headers := [], Body := "" } =
      .ok { Method := "GET", URL := "https://a.test/x", Body := none, Header := [] } ∧
    InRange 9223372036854775807 ∧
    checkHealth sampleLib netTimeout
        { Name := "x", URL := "https://a.test/x", Method := "", Headers := [], Body := "" }
        [("a.test", { Success := 0, Total := 9223372036854775807 })] =
      some [("a.test", { Success := 0, Total := -9223372036854775808 })] ∧
    (-9223372036854775808 : Int) ≠ 9223372036854775807 + 1 := by
  refine ⟨rfl, by unfold InRange minInt maxInt; decide, by decide, by decide⟩

/-- Claim C3, in the range of Go's int: `0 ≤ Success ≤ Total` holds in every
bucket of the empty map, is preserved by `initStats`, is preserved by every
call of `checkHealth` (any endpoint, any outcome) made while the `Total` of the
endpoint's bucket is below the largest `int`, and therefore holds in every
state reached from `initStats` by at most that many calls. -/
theorem C3_invariant :
    StatsInv [] ∧
    (∀ (lib : Lib) (eps : List Endpoint) (s : Stats), StatsInv s →
      ∃ s1, initStats lib eps s = some s1 ∧ StatsInv s1) ∧
    (∀ (lib : Lib) (net : Net) (ep : Endpoint) (s : Stats), StatsInv s →
      (∀ dm st, extractDomain lib ep.URL = some dm → s.find dm = some st →
        st.Total < maxInt) →
      ∃ s1, checkHealth lib net ep s = some s1 ∧ StatsInv s1) ∧
    (∀ (lib : Lib) (eps : List Endpoint) (calls : List (Endpoint × Net)),
      (calls.length : Int) ≤ maxInt →
      ∃ s0 s, initStats lib eps [] = some s0 ∧ runChecks lib calls s0 = some s ∧
        StatsInv s) := by
  refine ⟨by simp [StatsInv], ?_, ?_, ?_⟩
  · intro lib eps s hinv
    obtain ⟨s1, hs1, _, _, _, _, hmem⟩ := initStats_spec lib eps s
    refine ⟨s1, hs1, ?_⟩
    intro p hp
    rcases hmem p hp with h | h
    · exact hinv p h
    · rw [h]
      decide
  · intro lib net ep s hinv hroom
    cases hreq : checkHealth.request lib ep with
    | error e => exact ⟨s, checkHealth_skip lib net ep s e hreq, hinv⟩
    | ok req =>
      obtain ⟨dm, hd⟩ := extractDomain_total lib ep.URL
      refine ⟨_, checkHealth_ok lib net ep s req dm hreq hd, ?_⟩
      have hb : 0 ≤ ((s.find dm).getD { Success := 0, Total := 0 }).Success ∧
          ((s.find dm).getD { Success := 0, Total := 0 }).Success ≤
            ((s.find dm).getD { Success := 0, Total := 0 }).Total ∧
          ((s.find dm).getD { Success := 0, Total := 0 }).Total < maxInt := by
        cases hf : s.find dm with
        | none =>
          simp only [Option.getD_none]
          unfold maxInt
          decide
        | some st =>
          have := hinv (dm, st) (mem_of_find s dm st hf)
          exact ⟨this.1, this.2, hroom dm st hd hf⟩
      obtain ⟨h0, hle, hlt⟩ := hb
      have hT1 : intAdd ((s.find dm).getD { Success := 0, Total := 0 }).Total 1 =
          ((s.find dm).getD { Success := 0, Total := 0 }).Total + 1 := by
        apply wrapInt_of_inRange
        unfold InRange minInt
        unfold maxInt at hlt ⊢
        omega
      intro p hp
      rcases mem_put _ _ _ _ hp with h | h
      · exact hinv p h
      · rw [h]
        simp only [hT1]
        by_cases hh : checkHealth.healthy (net req) = true
        · have hS1 : intAdd ((s.find dm).getD { Success := 0, Total := 0 }).Success 1 =
              ((s.find dm).getD { Success := 0, Total := 0 }).Success + 1 := by
            apply wrapInt_of_inRange
            unfold InRange minInt
            unfold maxInt at hlt ⊢
            omega
          simp only [hh, if_true, hS1]
          omega
        · simp only [hh]
          simp only [Bool.false_eq_true, if_false]
          omega
  · intro lib eps calls hlen
    obtain ⟨s0, hs0, _, _, hnone, hnodup, hzero⟩ := initStats_spec lib eps []
    obtain ⟨s, hs, hn, _, hfind⟩ := runChecks_spec lib calls s0
    refine ⟨s0, s, hs0, hs, ?_⟩
    intro p hp
    obtain ⟨D, st⟩ := p
    have hnd : s.keys.Nodup := hn (hnodup (by simp [Stats.keys]))
    have hf := find_of_mem s hnd D st hp
    rw [hfind D] at hf
    have hstart : (s0.find D).getD { Success := 0, Total := 0 } = { Success := 0, Total := 0 } := by
      cases hf0 : s0.find D with
      | none => rfl
      | some w =>
        rcases hzero (D, w) (mem_of_find s0 D w hf0) with h | h
        · simp at h
        · simpa using h
    by_cases hc : countChecks lib D calls = 0
    · simp only [hc, if_true] at hf
      rcases hzero (D, st) (mem_of_find s0 D st hf) with h | h
      · simp at h
      · simp only at h
        rw [h]
        exact ⟨le_refl _, le_refl _⟩
    · simp only [hc, if_false, hstart] at hf
      injection hf with hf
      have hle := attemptedHealthy_le lib D calls
      have hcl : countChecks lib D calls ≤ calls.length := List.countP_le_length _
      have hw1 : wrapInt (0 + (countChecks lib D calls : Int)) = countChecks lib D calls := by
        rw [zero_add]
        apply wrapInt_of_inRange
        unfold InRange minInt
        unfold maxInt at hlen ⊢
        omega
      have hw2 : wrapInt (0 + (countHealthy lib D calls : Int)) = countHealthy lib D calls := by
        rw [zero_add]
        apply wrapInt_of_inRange
        unfold InRange minInt
        unfold maxInt at hlen ⊢
        omega
      rw [← hf]
      simp only [hw1, hw2]
      by_cases hh : countHealthy lib D calls = 0
      · simp only [hh, if_true]
        omega
      · simp only [hh, if_false]
        omega

/-- A run of `n > 0` timed-out checks of one endpoint on the map with the single
bucket `a.test`: the bucket holds the wrapped count. -/
theorem timeouts_run (n : Nat) (hn : n ≠ 0) (t : Int) :
    runChecks sampleLib (List.replicate n (sampleX, netTimeout))
        [("a.test", { Success := 0, Total := t })] =
      some [("a.test", { Success := 0, Total := wrapInt (t + (n : Int)) })] := by
  induction n generalizing t with
  | zero => exact absurd rfl hn
  | succ m ih =>
    have hstep : checkHealth sampleLib netTimeout sampleX
        [("a.test", { Success := 0, Total := t })] =
        some [("a.test", { Success := 0, Total := intAdd t 1 })] := rfl
    rw [List.replicate_succ]
    simp only [runChecks, hstep]
    by_cases hm : m = 0
    · subst hm
      simp only [List.replicate_zero, runChecks, intAdd]
      norm_num
    · rw [ih hm (intAdd t 1)]
      unfold intAdd
      rw [wrapInt_add_wrapInt]
      have harg : t + 1 + (m : Int) = t + ((m + 1 : Nat) : Int) := by
        push_cast
        omega
      rw [harg]

/-- The checks counted for `a.test` in a run of `n` timed-out checks. -/
theorem timeouts_count (n : Nat) :
    countChecks sampleLib "a.test" (List.replicate n (sampleX, netTimeout)) = n := by
  unfold countChecks
  rw [List.countP_replicate]
  have : attempted sampleLib "a.test" (sampleX, netTimeout) = true := by decide
  rw [this]
  rfl

/-- Claim C3, instance: a healthy check on the bucket `(1, 2)` keeps the
invariant. -/
theorem C3_invariant_witness :
    StatsInv [("a.test", { Success := 1, Total := 2 })] ∧
      ∃ s1, checkHealth sampleLib netOk sampleX [("a.test", { Success := 1, Total := 2 })] =
          some s1 ∧ StatsInv s1 :=
  ⟨by decide,
   C3_invariant.2.2.1 sampleLib netOk sampleX [("a.test", { Success := 1, Total := 2 })]
     (by decide)
     (by
       intro dm st hdm hst
       have hx : extractDomain sampleLib sampleX.URL = some "a.test" := by decide
       rw [hx] at hdm
       injection hdm with hdm
       subst hdm
       have hst2 : some ({ Success := 1, Total := 2 } : DomainStats) = some st := hst
       injection hst2 with hst2
       subst hst2
       unfold maxInt
       decide)⟩

/-- Claim C3 as stated fails at the largest `int`: a map that satisfies the
invariant with `Total = 2^63 - 1` violates it after one more check, and the
state reached from `initStats` by `2^63` timed-out checks violates it. -/
theorem C3_counterexample :
    (StatsInv [("a.test", { Success := 0, Total := 9223372036854775807 })] ∧
      checkHealth sampleLib netTimeout sampleX
          [("a.test", { Success := 0, Total := 9223372036854775807 })] =
        some [("a.test", { Success := 0, Total := -9223372036854775808 })] ∧
      ¬ StatsInv [("a.test", { Success := 0, Total := -9223372036854775808 })]) ∧
    (initStats sampleLib [sampleX] [] = some [("a.test", { Success := 0, Total := 0 })] ∧
      runChecks sampleLib (List.replicate 9223372036854775808 (sampleX, netTimeout))
          [("a.test", { Success := 0, Total := 0 })] =
        some [("a.test", { Success := 0, Total := -9223372036854775808 })]) := by
  refine ⟨⟨by decide, by decide, by decide⟩, by decide, ?_⟩
  rw [timeouts_run 9223372036854775808 (by decide) 0]
  have : wrapInt (0 + ((9223372036854775808 : Nat) : Int)) = -9223372036854775808 := by
    unfold wrapInt
    decide
  rw [this]

/-- Claim C4, in the range of Go's int: from the state `initStats` produces on
the empty map, every sequence of `checkHealth` calls returns; the map has one
bucket per domain, a domain has a bucket exactly when it is the domain of a
configured endpoint or of a non-skipped check; and for every domain whose
number of non-skipped checks does not exceed the largest `int`, `Total` is
that number and `Success` the number of those classified healthy. The state
`main` reaches after any number of passes is the state of the sequence of all
its calls, so nothing is reset between passes. -/
theorem C4_cumulative_counts (lib : Lib) (eps : List Endpoint)
    (calls : List (Endpoint × Net)) :
    ∃ s0 s, initStats lib eps [] = some s0 ∧ runChecks lib calls s0 = some s ∧
      s.keys.Nodup ∧
      (∀ D, (s.find D).isSome = true ↔
        ((∃ ep ∈ eps, extractDomain lib ep.URL = some D) ∨ 0 < countChecks lib D calls)) ∧
      (∀ D st, s.find D = some st → (countChecks lib D calls : Int) ≤ maxInt →
        st.Total = countChecks lib D calls ∧ st.Success = countHealthy lib D calls) ∧
      (∀ cycles, calls = allCalls eps cycles →
        ∃ reports, main lib eps cycles = some (s, reports)) := by
  obtain ⟨s0, hs0, _, hsome, hnone, hnodup, hzero⟩ := initStats_spec lib eps []
  obtain ⟨s, hs, hn, hkeys, hfind⟩ := runChecks_spec lib calls s0
  have hstart : ∀ D, (s0.find D).getD { Success := 0, Total := 0 } =
      { Success := 0, Total := 0 } := by
    intro D
    cases hf0 : s0.find D with
    | none => rfl
    | some w =>
      rcases hzero (D, w) (mem_of_find s0 D w hf0) with h | h
      · simp at h
      · simpa using h
  refine ⟨s0, s, hs0, hs, hn (hnodup (by simp [Stats.keys])), ?_, ?_, ?_⟩
  · intro D
    rw [find_isSome_iff_mem_keys, hkeys D, ← find_isSome_iff_mem_keys]
    by_cases hex : ∃ ep ∈ eps, extractDomain lib ep.URL = some D
    · simp [hsome D rfl hex, hex]
    · simp [hnone D rfl hex, hex]
  · intro D st hst hle
    rw [hfind D] at hst
    have hhc := attemptedHealthy_le lib D calls
    by_cases hc : countChecks lib D calls = 0
    · simp only [hc, if_true] at hst
      have hh : countHealthy lib D calls = 0 := by omega
      rcases hzero (D, st) (mem_of_find s0 D st hst) with h | h
      · simp at h
      · simp only at h
        rw [h, hc, hh]
        exact ⟨rfl, rfl⟩
    · simp only [hc, if_false, hstart D, zero_add] at hst
      injection hst with hst
      have hw1 : wrapInt (countChecks lib D calls : Int) = countChecks lib D calls := by
        apply wrapInt_of_inRange
        unfold InRange minInt
        unfold maxInt at hle ⊢
        omega
      have hw2 : wrapInt (countHealthy lib D calls : Int) = countHealthy lib D calls := by
        apply wrapInt_of_inRange
        unfold InRange minInt
        unfold maxInt at hle ⊢
        omega
      rw [← hst]
      simp only [hw1, hw2]
      by_cases hh : countHealthy lib D calls = 0
      · simp [hh]
      · simp [hh]
  · intro cycles hcalls
    obtain ⟨s2, reports, hloop, hrun, _⟩ := mainLoop_spec lib eps cycles s0
    rw [← hcalls, hs] at hrun
    injection hrun with hrun
    subst hrun
    exact ⟨reports, by simp [main, hs0, hloop]⟩

/-- Claim C4, instance: the scenario of the specification. After one pass with
a success on `https://a.test/x` and a timeout on `https://a.test/y` the shared
bucket is `(1, 2)` and the report is `a.test has 50% availability`. -/
theorem C4_cumulative_counts_witness :
    main sampleLib sampleEndpoints [[netOk, netTimeout]] =
        some ([("a.test", { Success := 1, Total := 2 })], [["a.test has 50% availability\n"]]) ∧
      ∃ s0 s, initStats sampleLib sampleEndpoints [] = some s0 ∧
        runChecks sampleLib (allCalls sampleEndpoints [[netOk, netTimeout]]) s0 = some s ∧
        ∀ st, s.find "a.test" = some st → st.Total = 2 ∧ st.Success = 1 := by
  refine ⟨by decide, ?_⟩
  obtain ⟨s0, s, h0, h1, _, _, hcount, _⟩ :=
    C4_cumulative_counts sampleLib sampleEndpoints (allCalls sampleEndpoints [[netOk, netTimeout]])
  refine ⟨s0, s, h0, h1, ?_⟩
  intro st hst
  have hc : countChecks sampleLib "a.test" (allCalls sampleEndpoints [[netOk, netTimeout]]) = 2 := by
    decide
  have hh : countHealthy sampleLib "a.test" (allCalls sampleEndpoints [[netOk, netTimeout]]) = 1 := by
    decide
  have := hcount "a.test" st hst (by rw [hc]; unfold maxInt; decide)
  rw [hc, hh] at this
  exact this

/-- Claim C4 as stated fails past the largest `int`: after `2^63` timed-out
checks of `https://a.test/x` the number of non-skipped checks of `a.test` is
`2^63` and the bucket holds `Total = -2^63`. -/
theorem C4_counterexample :
    initStats sampleLib [sampleX] [] = some [("a.test", { Success := 0, Total := 0 })] ∧
      runChecks sampleLib (List.replicate 9223372036854775808 (sampleX, netTimeout))
          [("a.test", { Success := 0, Total := 0 })] =
        some [("a.test", { Success := 0, Total := -9223372036854775808 })] ∧
      countChecks sampleLib "a.test"
        (List.replicate 9223372036854775808 (sampleX, netTimeout)) = 9223372036854775808 ∧
      (-9223372036854775808 : Int) ≠ ((9223372036854775808 : Nat) : Int) := by
  refine ⟨by decide, ?_, timeouts_count 9223372036854775808, by decide⟩
  rw [timeouts_run 9223372036854775808 (by decide) 0]
  have : wrapInt (0 + ((9223372036854775808 : Nat) : Int)) = -9223372036854775808 := by
    unfold wrapInt
    decide
  rw [this]

theorem keys_after_init_and_run (lib : Lib) (eps : List Endpoint)
    (calls : List (Endpoint × Net)) (hcalls : ∀ c ∈ calls, c.1 ∈ eps) :
    ∃ s0 s, initStats lib eps [] = some s0 ∧ runChecks lib calls s0 = some s ∧
      s.keys.Nodup ∧
      (∀ d, d ∈ s.keys ↔ ∃ ep ∈ eps, extractDomain lib ep.URL = some d) := by
  obtain ⟨s0, hs0, _, hsome, hnone, hnodup, _⟩ := initStats_spec lib eps []
  obtain ⟨s, hs, hn, hkeys, _⟩ := runChecks_spec lib calls s0
  refine ⟨s0, s, hs0, hs, hn (hnodup (by simp [Stats.keys])), ?_⟩
  intro d
  rw [hkeys d, ← find_isSome_iff_mem_keys]
  constructor
  · intro h
    rcases h with h | h
    · by_contra hex
      rw [hnone d rfl hex] at h
      simp at h
    · unfold countChecks at h
      rw [List.countP_pos_iff] at h
      obtain ⟨c, hc, hatt⟩ := h
      refine ⟨c.1, hcalls c hc, ?_⟩
      unfold attempted at hatt
      cases hreq : checkHealth.request lib c.1 with
      | error e => simp [hreq] at hatt
      | ok req =>
        simp only [hreq] at hatt
        exact of_decide_eq_true hatt
  · intro hex
    left
    rw [hsome d rfl hex]
    rfl

/-- Claim C10: after `initStats` on the configured endpoints and any sequence
of `checkHealth` calls on endpoints of the list, every configured endpoint has
a bucket for its domain, so the test `stats[domain] == nil` that guards the
bucket creation in `checkHealth` is false at every call of the main loop; the
map has one bucket per domain and its keys are the domains of the configured
endpoints. For any number of cycles `main` returns, and the report of every
cycle has one line per distinct domain of the configured endpoints and no
other line. -/
theorem C10_buckets_exist (lib : Lib) (eps : List Endpoint) :
    (∀ calls : List (Endpoint × Net), (∀ c ∈ calls, c.1 ∈ eps) →
      ∃ s0 s, initStats lib eps [] = some s0 ∧ runChecks lib calls s0 = some s ∧
        (∀ ep ∈ eps, ∃ d, extractDomain lib ep.URL = some d ∧ (s.find d).isNone = false) ∧
        s.keys.Nodup ∧
        (∀ d, d ∈ s.keys ↔ ∃ ep ∈ eps, extractDomain lib ep.URL = some d)) ∧
    (∀ cycles : List (List Net), ∃ s reports,
      main lib eps cycles = some (s, reports) ∧ reports.length = cycles.length ∧
      ∀ report ∈ reports, ∃ keys : List String, keys.Nodup ∧
        (∀ d, d ∈ keys ↔ ∃ ep ∈ eps, extractDomain lib ep.URL = some d) ∧
        report.length = keys.length ∧
        ∀ i d, keys.get? i = some d →
          ∃ p : Int, report.get? i = some (d ++ " has " ++ toString p ++ "% availability\n")) := by
  constructor
  · intro calls hcalls
    obtain ⟨s0, s, hs0, hs, hnd, hkeys⟩ := keys_after_init_and_run lib eps calls hcalls
    refine ⟨s0, s, hs0, hs, ?_, hnd, hkeys⟩
    intro ep hep
    obtain ⟨d, hd⟩ := extractDomain_total lib ep.URL
    refine ⟨d, hd, ?_⟩
    have hmem : d ∈ s.keys := (hkeys d).mpr ⟨ep, hep, hd⟩
    have := (find_isSome_iff_mem_keys s d).mpr hmem
    cases hf : s.find d with
    | none => simp [hf] at this
    | some st => rfl
  · intro cycles
    obtain ⟨s0, hs0⟩ : ∃ s0, initStats lib eps [] = some s0 := by
      obtain ⟨s0, hs0, _⟩ := initStats_spec lib eps []
      exact ⟨s0, hs0⟩
    obtain ⟨s, reports, hloop, _, hlen, hreports⟩ := mainLoop_spec lib eps cycles s0
    refine ⟨s, reports, by simp [main, hs0, hloop], hlen, ?_⟩
    intro report hreport
    obtain ⟨pre, sp, hsp, hlog⟩ := hreports report hreport
    obtain ⟨t0, t, ht0, ht, hnd, hkeys⟩ :=
      keys_after_init_and_run lib eps (allCalls eps pre) (fun c hc => mem_allCalls eps pre c hc)
    rw [hs0] at ht0
    injection ht0 with ht0
    subst ht0
    rw [hsp] at ht
    injection ht with ht
    subst ht
    obtain ⟨out, hout, hlen2, hget⟩ := logResults_spec sp
    rw [hlog] at hout
    injection hout with hout
    subst hout
    refine ⟨sp.keys, hnd, hkeys, by rw [hlen2]; simp [Stats.keys], ?_⟩
    intro i d hi
    unfold Stats.keys at hi
    rw [List.get?_eq_getElem?, List.getElem?_map] at hi
    cases hb : sp[i]? with
    | none =>
      rw [hb] at hi
      simp at hi
    | some b =>
      obtain ⟨k, st⟩ := b
      rw [hb] at hi
      simp only [Option.map_some'] at hi
      injection hi with hi
      subst hi
      obtain ⟨text, htext, hti⟩ := hget i k st (by rw [List.get?_eq_getElem?]; exact hb)
      obtain ⟨p, hp⟩ := line_form k st text htext
      exact ⟨p, by rw [hti, hp]⟩

/-- Claim C10, instance: in the scenario of the specification, after one pass
both endpoints find the bucket `a.test`, the only key of the map. -/
theorem C10_buckets_exist_witness :
    (∀ c ∈ allCalls sampleEndpoints [[netOk, netTimeout]], c.1 ∈ sampleEndpoints) ∧
      ∃ s0 s, initStats sampleLib sampleEndpoints [] = some s0 ∧
        runChecks sampleLib (allCalls sampleEndpoints [[netOk, netTimeout]]) s0 = some s ∧
        (∀ ep ∈ sampleEndpoints, ∃ d, extractDomain sampleLib ep.URL = some d ∧
          (s.find d).isNone = false) ∧
        s.keys.Nodup ∧
        (∀ d, d ∈ s.keys ↔ ∃ ep ∈ sampleEndpoints, extractDomain sampleLib ep.URL = some d) :=
  ⟨fun c hc => mem_allCalls sampleEndpoints [[netOk, netTimeout]] c hc,
   (C10_buckets_exist sampleLib sampleEndpoints).1
     (allCalls sampleEndpoints [[netOk, netTimeout]])
     (fun c hc => mem_allCalls sampleEndpoints [[netOk, netTimeout]] c hc)⟩

end HealthCheck
